import Mathlib

/-!
Verification of the sales forecast engine of the E-Commerce Analytics
Dashboard repository.

The single component under specification is the function `getForecastData`
in `src/pages/Sales.tsx`.  It takes a chronologically ordered list of
historical aggregate records, a forecast horizon, and the name of the value
field (defaulting to `"revenue"`), and returns a list of forecast points
combining a least-squares linear trend with a repeating trailing pattern.

Shallow embedding choices:
* JavaScript numbers are modelled as rationals (`ℚ`); `Math.round`
  is Mathlib's `round` (both are floor of `x + 1/2`).
* A history record is a calendar date together with a list of named
  fields.  A field value of `none` stands for the JavaScript values that
  are absent or not a usable number (`undefined`, `null`, `NaN`); the
  source expression `d[key] || 0` collapses all of these, and the number
  `0` itself, to `0`, which the embedding renders with `Option.getD`.
* Calendar dates are modelled as integer day numbers; the source's
  `setDate(lastDate.getDate() + i + 1)` adds exactly `i + 1` calendar
  days, which is integer addition on day numbers.
* The horizon is an integer; `Array.from (\x7b length: periods \x7d)`
  produces an empty array for every non-positive length, which the
  embedding renders with `Int.toNat`.
-/

/-- One row of the processed historical chart data: a calendar date (as an
integer day number) and the named aggregate fields (`"revenue"`,
`"orders"`, ...), each holding either a rational number or `none` for an
absent / non-numeric JavaScript value. -/
structure DataRow where
  date : ℤ
  fields : List (String × Option ℚ)
deriving DecidableEq, Repr

/-- One element of the list returned by `getForecastData`: a forecast date
and the clamped, rounded forecast value. -/
structure ForecastPoint where
  date : ℤ
  forecast : ℤ
deriving DecidableEq, Repr

/-- The value the source reads from a row: `d[key] || 0`.  A missing
field, a field explicitly holding `none` (absent / null / NaN), and the
number `0` all yield `0`. -/
def getVal (d : DataRow) (key : String) : ℚ :=
  ((d.fields.lookup key).getD none).getD 0

/-- `const ys = historicalData.map(d => d[key] || 0)`. -/
def ysOf (historicalData : List DataRow) (key : String) : List ℚ :=
  historicalData.map (fun d => getVal d key)

/-- `const sumX = xs.reduce((a, b) => a + b, 0)` where
`xs = historicalData.map((_, i) => i)`. -/
def sumXOf (n : ℕ) : ℚ :=
  ((List.range n).map (fun (i : ℕ) => (i : ℚ))).sum

/-- `const sumY = ys.reduce((a, b) => a + b, 0)`. -/
def sumYOf (ys : List ℚ) : ℚ := ys.sum

/-- `const sumXY = xs.reduce((sum, x, i) => sum + x * ys[i], 0)`. -/
def sumXYOf (ys : List ℚ) : ℚ :=
  ((List.range ys.length).map (fun (i : ℕ) => (i : ℚ) * ys.getD i 0)).sum

/-- `const sumXX = xs.reduce((sum, x) => sum + x * x, 0)`. -/
def sumXXOf (n : ℕ) : ℚ :=
  ((List.range n).map (fun (i : ℕ) => (i : ℚ) * (i : ℚ))).sum

/-- The regression denominator `n * sumXX - sumX * sumX` of line 19 of
`Sales.tsx`, before the `|| 1` fallback is applied. -/
def denomOf (n : ℕ) : ℚ :=
  (n : ℚ) * sumXXOf n - sumXOf n * sumXOf n

/-- `const slope = (n * sumXY - sumX * sumY) / (n * sumXX - sumX * sumX || 1)`:
a zero denominator is replaced by `1`. -/
def slopeOf (ys : List ℚ) : ℚ :=
  ((ys.length : ℚ) * sumXYOf ys - sumXOf ys.length * sumYOf ys) /
    (if denomOf ys.length = 0 then 1 else denomOf ys.length)

/-- `const intercept = (sumY - slope * sumX) / n`. -/
def interceptOf (ys : List ℚ) : ℚ :=
  (sumYOf ys - slopeOf ys * sumXOf ys.length) / (ys.length : ℚ)

/-- `const patternWindow = Math.min(14, historicalData.length);
const pattern = ys.slice(-patternWindow)`: the trailing
`min 14 n` values of `ys`. -/
def patternOf (ys : List ℚ) : List ℚ :=
  ys.drop (ys.length - min 14 ys.length)

/-- `historicalData[historicalData.length - 1].date`: the date of the last
historical row (`0` for an empty history, which the guard excludes). -/
def lastDateOf (historicalData : List DataRow) : ℤ :=
  ((historicalData.getLast?).map DataRow.date).getD 0

/-- The body of the `Array.from(...).map((_, i) => ...)` callback: forecast
step `i` blends the trend `slope * (n + i) + intercept` with the cyclic
pattern value, halves the sum, rounds, clamps at `0`, and dates the point
`i + 1` days after the last historical date. -/
def forecastStep (historicalData : List DataRow) (key : String) (i : ℕ) :
    ForecastPoint :=
  let ys := ysOf historicalData key
  let n : ℕ := historicalData.length
  let trend := slopeOf ys * ((n : ℚ) + (i : ℚ)) + interceptOf ys
  let patternValue := (patternOf ys).getD (i % (patternOf ys).length) 0
  let forecast := (trend + patternValue) / 2
  { date := lastDateOf historicalData + (i : ℤ) + 1,
    forecast := max 0 (round forecast) }

/-- `getForecastData` from `src/pages/Sales.tsx`: returns `[]` when the
history has fewer than 2 rows, and otherwise maps `forecastStep` over the
indices `0 .. periods - 1` (none when `periods ≤ 0`). -/
def getForecastData (historicalData : List DataRow) (periods : ℤ)
    (key : String := "revenue") : List ForecastPoint :=
  if historicalData.length < 2 then []
  else (List.range periods.toNat).map (forecastStep historicalData key)

/-! ### Specification-side definitions

The following definitions transcribe the spec's own wording (section 4.1 of
the specification): the standard least-squares sums over indices
`x = 0 .. n-1`, the slope and intercept formulas with the zero-denominator
fallback, the trailing pattern window, and the per-step forecast value
`max(0, round((slope*(n+i) + intercept + pattern[i mod len(pattern)]) / 2))`.
They are compared with the definitions transcribed from the source. -/

/-- Spec sum `Σx` over indices `0 .. n-1`. -/
def specSx (n : ℕ) : ℚ := ∑ i in Finset.range n, (i : ℚ)

/-- Spec sum `Σx²` over indices `0 .. n-1`. -/
def specSxx (n : ℕ) : ℚ := ∑ i in Finset.range n, (i : ℚ) ^ 2

/-- Spec sum `Σy` over the historical values. -/
def specSy (ys : List ℚ) : ℚ := ∑ i in Finset.range ys.length, ys.getD i 0

/-- Spec sum `Σxy` over index/value pairs. -/
def specSxy (ys : List ℚ) : ℚ :=
  ∑ i in Finset.range ys.length, (i : ℚ) * ys.getD i 0

/-- Spec slope `(n*Σxy - Σx*Σy) / (n*Σx² - (Σx)²)`, a zero denominator
replaced by `1`. -/
def specSlope (ys : List ℚ) : ℚ :=
  let n : ℚ := ys.length
  let den := n * specSxx ys.length - specSx ys.length ^ 2
  (n * specSxy ys - specSx ys.length * specSy ys) / (if den = 0 then 1 else den)

/-- Spec intercept `(Σy - slope*Σx) / n`. -/
def specIntercept (ys : List ℚ) : ℚ :=
  (specSy ys - specSlope ys * specSx ys.length) / (ys.length : ℚ)

/-- Spec pattern window: the trailing `min 14 n` historical values in
original order (here: reverse, take, reverse back). -/
def specPattern (ys : List ℚ) : List ℚ :=
  (ys.reverse.take (min 14 ys.length)).reverse

/-- Spec forecast value for step `i`:
`max(0, round((slope*(n+i) + intercept + pattern[i mod len(pattern)]) / 2))`. -/
def specForecastValue (ys : List ℚ) (i : ℕ) : ℤ :=
  max 0 (round ((specSlope ys * ((ys.length : ℚ) + (i : ℚ)) + specIntercept ys +
    (specPattern ys).getD (i % (specPattern ys).length) 0) / 2))

/-! ### Bridge lemmas between the source sums and the spec sums -/

/-- A sum of `f` mapped over `List.range n` is the `Finset.range` sum. -/
lemma list_range_map_sum (f : ℕ → ℚ) (n : ℕ) :
    ((List.range n).map f).sum = ∑ i in Finset.range n, f i := by
  induction n with
  | zero => simp
  | succ n ih =>
      rw [List.range_succ, List.map_append, List.sum_append,
        Finset.sum_range_succ, ih]
      simp

lemma sumXOf_eq_specSx (n : ℕ) : sumXOf n = specSx n := by
  rw [sumXOf, specSx, list_range_map_sum (fun (i : ℕ) => (i : ℚ)) n]

lemma sumXXOf_eq_specSxx (n : ℕ) : sumXXOf n = specSxx n := by
  rw [sumXXOf, specSxx, list_range_map_sum (fun (i : ℕ) => (i : ℚ) * (i : ℚ)) n]
  exact Finset.sum_congr rfl fun i _ => (sq (i : ℚ)).symm

lemma sumXYOf_eq_specSxy (ys : List ℚ) : sumXYOf ys = specSxy ys := by
  rw [sumXYOf, specSxy, list_range_map_sum (fun (i : ℕ) => (i : ℚ) * ys.getD i 0)]

/-- A list sum is the sum of its `getD` values over its index range. -/
lemma sumYOf_eq_specSy (ys : List ℚ) : sumYOf ys = specSy ys := by
  rw [sumYOf, specSy]
  induction ys with
  | nil => simp
  | cons a t ih =>
      rw [List.length_cons, Finset.sum_range_succ']
      simp only [List.getD_cons_succ, List.getD_cons_zero, List.sum_cons]
      rw [ih, add_comm]

lemma denomOf_eq_spec (n : ℕ) :
    denomOf n = (n : ℚ) * specSxx n - specSx n ^ 2 := by
  rw [denomOf, sumXOf_eq_specSx, sumXXOf_eq_specSxx, sq]

lemma slopeOf_eq_specSlope (ys : List ℚ) : slopeOf ys = specSlope ys := by
  rw [slopeOf, specSlope, sumXYOf_eq_specSxy, sumXOf_eq_specSx,
    sumYOf_eq_specSy, denomOf_eq_spec]

lemma interceptOf_eq_specIntercept (ys : List ℚ) :
    interceptOf ys = specIntercept ys := by
  rw [interceptOf, specIntercept, slopeOf_eq_specSlope, sumXOf_eq_specSx,
    sumYOf_eq_specSy]

lemma patternOf_eq_specPattern (ys : List ℚ) :
    patternOf ys = specPattern ys := by
  rw [patternOf, specPattern, List.take_reverse, List.reverse_reverse]

/-! ### Closed forms of the index sums and positivity of the denominator -/

lemma sumXOf_closed (n : ℕ) : sumXOf n = (n : ℚ) * ((n : ℚ) - 1) / 2 := by
  induction n with
  | zero => simp [sumXOf]
  | succ n ih =>
      rw [sumXOf, List.range_succ, List.map_append, List.sum_append, ← sumXOf, ih]
      simp only [List.map_cons, List.map_nil, List.sum_cons, List.sum_nil]
      push_cast
      ring

lemma sumXXOf_closed (n : ℕ) :
    sumXXOf n = (n : ℚ) * ((n : ℚ) - 1) * (2 * (n : ℚ) - 1) / 6 := by
  induction n with
  | zero => simp [sumXXOf]
  | succ n ih =>
      rw [sumXXOf, List.range_succ, List.map_append, List.sum_append, ← sumXXOf, ih]
      simp only [List.map_cons, List.map_nil, List.sum_cons, List.sum_nil]
      push_cast
      ring

lemma denomOf_closed (n : ℕ) :
    denomOf n = (n : ℚ) ^ 2 * ((n : ℚ) ^ 2 - 1) / 12 := by
  rw [denomOf, sumXOf_closed, sumXXOf_closed]
  ring

lemma denomOf_pos {n : ℕ} (hn : 2 ≤ n) : 0 < denomOf n := by
  rw [denomOf_closed]
  have h2 : (2 : ℚ) ≤ (n : ℚ) := by exact_mod_cast hn
  have h4 : (4 : ℚ) ≤ (n : ℚ) ^ 2 := by nlinarith
  have hpos : (0 : ℚ) < (n : ℚ) ^ 2 * ((n : ℚ) ^ 2 - 1) := by nlinarith
  exact div_pos hpos (by norm_num)

lemma patternOf_length (ys : List ℚ) :
    (patternOf ys).length = min 14 ys.length := by
  rw [patternOf, List.length_drop]
  omega

/-! ### The shape of the returned list -/

/-- Element `i` of a non-degenerate forecast is `forecastStep` at `i`. -/
lemma getForecastData_getD (h : List DataRow) (p : ℤ) (key : String) (i : ℕ)
    (d : ForecastPoint) (hn : 2 ≤ h.length) (hi : i < p.toNat) :
    (getForecastData h p key).getD i d = forecastStep h key i := by
  rw [getForecastData, if_neg (by omega)]
  rw [List.getD_eq_getElem?_getD, List.getElem?_map, List.getElem?_range hi]
  rfl

/-! ### Concrete sample history used by the witnesses -/

/-- Two historical points with values `[10, 20]` on consecutive days. -/
def hist2 : List DataRow :=
  [{ date := 0, fields := [("revenue", some 10)] },
   { date := 1, fields := [("revenue", some 20)] }]

/-! ### Claim theorems -/

/-- C1: for every history with at least 2 points and every horizon ≥ 1,
the sequence returned by `getForecastData` has length exactly equal to the
horizon. -/
theorem forecast_length_eq_horizon (h : List DataRow) (p : ℤ) (key : String)
    (hn : 2 ≤ h.length) (hp : 1 ≤ p) :
    ((getForecastData h p key).length : ℤ) = p := by
  rw [getForecastData, if_neg (by omega), List.length_map, List.length_range]
  exact Int.toNat_of_nonneg (by omega)

/-- Witness for C1 at the concrete history `hist2` and horizon `3`. -/
theorem forecast_length_eq_horizon_witness :
    ((getForecastData hist2 3 "revenue").length : ℤ) = 3 :=
  forecast_length_eq_horizon hist2 3 "revenue" (by decide) (by decide)

/-- C3: a history with fewer than 2 points, or a horizon that is zero or
negative, yields the empty list; the function is total, so degenerate
inputs are not signalled as errors. -/
theorem forecast_degenerate_empty (h : List DataRow) (p : ℤ) (key : String)
    (hdeg : h.length < 2 ∨ p ≤ 0) :
    getForecastData h p key = [] := by
  rcases hdeg with hlen | hp
  · rw [getForecastData, if_pos hlen]
  · rw [getForecastData]
    split
    · rfl
    · rw [Int.toNat_of_nonpos hp]
      rfl

/-- Witness for C3: a single-point history yields `[]`. -/
theorem forecast_degenerate_empty_witness :
    getForecastData [{ date := 0, fields := [("revenue", some 10)] }] 5 "revenue" = [] :=
  forecast_degenerate_empty _ 5 "revenue" (Or.inl (by decide))

/-- C5: every forecast value in the returned sequence is ≥ 0 (the clamp
`max 0` applies even when the linear-trend extrapolation alone is
negative). -/
theorem forecast_values_nonneg (h : List DataRow) (p : ℤ) (key : String)
    (hn : 2 ≤ h.length) (hp : 1 ≤ p) :
    ∀ pt ∈ getForecastData h p key, 0 ≤ pt.forecast := by
  intro pt hpt
  rw [getForecastData, if_neg (by omega)] at hpt
  obtain ⟨i, hi, rfl⟩ := List.mem_map.mp hpt
  exact le_max_left 0 _

/-- Witness for C5 at `hist2`, horizon `3`, first forecast point. -/
theorem forecast_values_nonneg_witness :
    0 ≤ (forecastStep hist2 "revenue" 0).forecast :=
  forecast_values_nonneg hist2 3 "revenue" (by decide) (by decide)
    (forecastStep hist2 "revenue" 0)
    (by rw [getForecastData, if_neg (by decide)]
        exact List.mem_map_of_mem _ (by decide))

/-- C7: `getForecastData` is deterministic — two calls with identical
history, horizon and key arguments return identical lists.  In this
embedding the function is a pure total function of its arguments, so it
performs no I/O and touches no state outside them. -/
theorem forecast_deterministic (h₁ h₂ : List DataRow) (p₁ p₂ : ℤ)
    (k₁ k₂ : String) (hh : h₁ = h₂) (hp : p₁ = p₂) (hk : k₁ = k₂) :
    getForecastData h₁ p₁ k₁ = getForecastData h₂ p₂ k₂ := by
  rw [hh, hp, hk]

/-- Witness for C7 at `hist2` and horizon `3`. -/
theorem forecast_deterministic_witness :
    getForecastData hist2 3 "revenue" = getForecastData hist2 3 "revenue" :=
  forecast_deterministic hist2 hist2 3 3 "revenue" "revenue" rfl rfl rfl

/-- C4: the i-th forecast date is the last historical date plus `i + 1`
days, so consecutive forecast dates are strictly increasing by exactly one
day and the first is one day after the last historical date. -/
theorem forecast_dates_consecutive (h : List DataRow) (p : ℤ) (key : String)
    (hn : 2 ≤ h.length) :
    (∀ i : ℕ, i < p.toNat →
      ((getForecastData h p key).getD i ⟨0, 0⟩).date = lastDateOf h + (i : ℤ) + 1) ∧
    ∀ i : ℕ, i + 1 < p.toNat →
      ((getForecastData h p key).getD (i + 1) ⟨0, 0⟩).date
        = ((getForecastData h p key).getD i ⟨0, 0⟩).date + 1 := by
  constructor
  · intro i hi
    rw [getForecastData_getD h p key i _ hn hi]
    rfl
  · intro i hi
    rw [getForecastData_getD h p key (i + 1) _ hn hi,
      getForecastData_getD h p key i _ hn (by omega)]
    show lastDateOf h + ((i : ℤ) + 1) + 1 = lastDateOf h + (i : ℤ) + 1 + 1
    ring

/-- Witness for C4 at `hist2` and horizon `3`. -/
theorem forecast_dates_consecutive_witness :
    (∀ i : ℕ, i < (3 : ℤ).toNat →
      ((getForecastData hist2 3 "revenue").getD i ⟨0, 0⟩).date
        = lastDateOf hist2 + (i : ℤ) + 1) ∧
    ∀ i : ℕ, i + 1 < (3 : ℤ).toNat →
      ((getForecastData hist2 3 "revenue").getD (i + 1) ⟨0, 0⟩).date
        = ((getForecastData hist2 3 "revenue").getD i ⟨0, 0⟩).date + 1 :=
  forecast_dates_consecutive hist2 3 "revenue" (by decide)

/-- C2: the i-th forecast value equals the spec formula
`max(0, round((slope*(n+i) + intercept + pattern[i mod len(pattern)]) / 2))`
with slope, intercept, sums and pattern as the spec defines them. -/
theorem forecast_value_eq_spec (h : List DataRow) (p : ℤ) (key : String)
    (i : ℕ) (hn : 2 ≤ h.length) (hi : i < p.toNat) :
    ((getForecastData h p key).getD i ⟨0, 0⟩).forecast
      = specForecastValue (ysOf h key) i := by
  rw [getForecastData_getD h p key i _ hn hi]
  show max 0 (round ((slopeOf (ysOf h key) * ((h.length : ℚ) + (i : ℚ)) +
      interceptOf (ysOf h key) +
      (patternOf (ysOf h key)).getD (i % (patternOf (ysOf h key)).length) 0) / 2))
    = specForecastValue (ysOf h key) i
  rw [specForecastValue, slopeOf_eq_specSlope, interceptOf_eq_specIntercept,
    patternOf_eq_specPattern]
  have hlen : (ysOf h key).length = h.length := List.length_map _ _
  rw [hlen]

/-- Witness for C2 at `hist2`, horizon `3`, step `0`. -/
theorem forecast_value_eq_spec_witness :
    ((getForecastData hist2 3 "revenue").getD 0 ⟨0, 0⟩).forecast
      = specForecastValue (ysOf hist2 "revenue") 0 :=
  forecast_value_eq_spec hist2 3 "revenue" 0 (by decide) (by decide)

/-- C6: the pattern used by the forecast is exactly the trailing
`min 14 n` historical values in original order, and forecast step `i`
reads the pattern at index `i mod pattern.length`, so the pattern repeats
cyclically for horizons longer than the window. -/
theorem forecast_pattern_window (h : List DataRow) (p : ℤ) (key : String)
    (hn : 2 ≤ h.length) :
    patternOf (ysOf h key) = specPattern (ysOf h key) ∧
    (patternOf (ysOf h key)).length = min 14 h.length ∧
    ∀ i : ℕ, i < p.toNat →
      ((getForecastData h p key).getD i ⟨0, 0⟩).forecast
        = max 0 (round ((slopeOf (ysOf h key) * ((h.length : ℚ) + (i : ℚ)) +
            interceptOf (ysOf h key) +
            (patternOf (ysOf h key)).getD (i % (patternOf (ysOf h key)).length) 0) / 2)) := by
  refine ⟨patternOf_eq_specPattern _, ?_, ?_⟩
  · rw [patternOf_length, ysOf, List.length_map]
  · intro i hi
    rw [getForecastData_getD h p key i _ hn hi]
    rfl

/-- Witness for C6 at `hist2` and horizon `3`. -/
theorem forecast_pattern_window_witness :
    patternOf (ysOf hist2 "revenue") = specPattern (ysOf hist2 "revenue") ∧
    (patternOf (ysOf hist2 "revenue")).length = min 14 hist2.length ∧
    ∀ i : ℕ, i < (3 : ℤ).toNat →
      ((getForecastData hist2 3 "revenue").getD i ⟨0, 0⟩).forecast
        = max 0 (round ((slopeOf (ysOf hist2 "revenue") * ((hist2.length : ℚ) + (i : ℚ)) +
            interceptOf (ysOf hist2 "revenue") +
            (patternOf (ysOf hist2 "revenue")).getD
              (i % (patternOf (ysOf hist2 "revenue")).length) 0) / 2)) :=
  forecast_pattern_window hist2 3 "revenue" (by decide)

/-- C9: for every history length `n ≥ 2` the regression denominator
`n*Σx² - (Σx)²` is strictly positive, so the `|| 1` fallback is never
taken; the pattern window `min 14 n` is at least 2, hence nonzero, and
`i mod pattern.length` is always a valid index into the pattern. -/
theorem regression_denom_pos_pattern_inbounds (n : ℕ) (ys : List ℚ)
    (hn : 2 ≤ n) (hys : ys.length = n) :
    0 < denomOf n ∧
    (if denomOf n = 0 then (1 : ℚ) else denomOf n) = denomOf n ∧
    2 ≤ (patternOf ys).length ∧
    ∀ i : ℕ, i % (patternOf ys).length < (patternOf ys).length := by
  have hpos := denomOf_pos hn
  have hplen : (patternOf ys).length = min 14 n := by rw [patternOf_length, hys]
  have h2 : 2 ≤ (patternOf ys).length := by rw [hplen]; omega
  refine ⟨hpos, if_neg (ne_of_gt hpos), h2, ?_⟩
  intro i
  exact Nat.mod_lt i (by omega)

/-- Witness for C9 at `n = 2`, `ys = [10, 20]`. -/
theorem regression_denom_pos_pattern_inbounds_witness :
    0 < denomOf 2 ∧
    (if denomOf 2 = 0 then (1 : ℚ) else denomOf 2) = denomOf 2 ∧
    2 ≤ (patternOf [10, 20]).length ∧
    ∀ i : ℕ, i % (patternOf [10, 20]).length < (patternOf [10, 20]).length :=
  regression_denom_pos_pattern_inbounds 2 [10, 20] (by decide) (by decide)

/-- C10: a history entry whose value at the selected key is absent or
falsy contributes `0` to the regression sums and the pattern window (the
input is not rejected), and the value key defaults to `"revenue"` when
not supplied. -/
theorem falsy_field_defaults_zero (e : DataRow) (k : String)
    (h : List DataRow) (p : ℤ) :
    ((e.fields.lookup k = none ∨ e.fields.lookup k = some none ∨
        e.fields.lookup k = some (some 0)) → getVal e k = 0) ∧
    getForecastData h p = getForecastData h p "revenue" ∧
    ((∀ d ∈ h, d.fields.lookup k = none) →
      ysOf h k = List.replicate h.length 0) := by
  refine ⟨?_, rfl, ?_⟩
  · rintro (hl | hl | hl) <;> simp [getVal, hl]
  · intro hall
    have hlen : (ysOf h k).length = h.length := List.length_map _ _
    rw [← hlen]
    apply List.eq_replicate_of_mem
    intro b hb
    rw [ysOf] at hb
    obtain ⟨d, hd, rfl⟩ := List.mem_map.mp hb
    simp [getVal, hall d hd]

/-- Witness for C10: a row without a `"revenue"` field reads as `0`, and
omitting the key argument is the same as passing `"revenue"`. -/
theorem falsy_field_defaults_zero_witness :
    getVal { date := 0, fields := [("orders", some 5)] } "revenue" = 0 ∧
    getForecastData hist2 3 = getForecastData hist2 3 "revenue" := by
  have hmain := falsy_field_defaults_zero
    { date := 0, fields := [("orders", some 5)] } "revenue" hist2 3
  exact ⟨hmain.1 (Or.inl (by decide)), hmain.2.1⟩

/-- C8: for the 2-point history with values `[10, 20]` on consecutive days
and horizon 3, the forecast is the non-empty 3-element sequence
`[(day 2, 20), (day 3, 30), (day 4, 30)]`: the trend is increasing (the
regression slope is positive) and every value is ≥ 0. -/
theorem forecast_concrete_two_points :
    getForecastData hist2 3 = [⟨2, 20⟩, ⟨3, 30⟩, ⟨4, 30⟩] ∧
    getForecastData hist2 3 ≠ [] ∧
    (getForecastData hist2 3).length = 3 ∧
    0 < slopeOf (ysOf hist2 "revenue") ∧
    ∀ pt ∈ getForecastData hist2 3, 0 ≤ pt.forecast := by
  have hys : ysOf hist2 "revenue" = [10, 20] := rfl
  have hslope : slopeOf (ysOf hist2 "revenue") = 10 := by
    rw [hys]
    norm_num [slopeOf, sumXYOf, sumXOf, sumYOf, sumXXOf, denomOf, List.range_succ]
  have hint : interceptOf (ysOf hist2 "revenue") = 10 := by
    rw [hys]
    have hslope2 : slopeOf [(10 : ℚ), 20] = 10 := hys ▸ hslope
    norm_num [interceptOf, hslope2, sumYOf, sumXOf, List.range_succ]
  have hpat : patternOf (ysOf hist2 "revenue") = [10, 20] := by
    rw [hys]
    simp [patternOf]
  have hlen2 : hist2.length = 2 := rfl
  have hlast : lastDateOf hist2 = 1 := rfl
  have hexp : getForecastData hist2 3 =
      [forecastStep hist2 "revenue" 0, forecastStep hist2 "revenue" 1,
       forecastStep hist2 "revenue" 2] := by
    rw [getForecastData, if_neg (by decide)]
    rfl
  have h0 : forecastStep hist2 "revenue" 0 = ⟨2, 20⟩ := by
    simp only [forecastStep, hslope, hint, hpat, hlen2, hlast]
    norm_num [round_eq, ForecastPoint.mk.injEq]
  have h1 : forecastStep hist2 "revenue" 1 = ⟨3, 30⟩ := by
    simp only [forecastStep, hslope, hint, hpat, hlen2, hlast]
    norm_num [round_eq, ForecastPoint.mk.injEq]
  have h2 : forecastStep hist2 "revenue" 2 = ⟨4, 30⟩ := by
    simp only [forecastStep, hslope, hint, hpat, hlen2, hlast]
    norm_num [round_eq, ForecastPoint.mk.injEq]
  have hlist : getForecastData hist2 3 = [⟨2, 20⟩, ⟨3, 30⟩, ⟨4, 30⟩] := by
    rw [hexp, h0, h1, h2]
  refine ⟨hlist, by rw [hlist]; simp, by rw [hlist]; rfl, by rw [hslope]; norm_num, ?_⟩
  intro pt hpt
  rw [hlist] at hpt
  rcases List.mem_cons.mp hpt with h | hpt <;>
    [skip; rcases List.mem_cons.mp hpt with h | hpt] <;>
    [skip; skip; rcases List.mem_cons.mp hpt with h | hpt] <;>
    first
      | (subst h; norm_num)
      | exact absurd hpt (List.not_mem_nil pt)
